import Mathlib

/-!
Shallow embedding of the `utils` repository: a localStorage wrapper
(`src/utils/localStorage/localStorage.ts`) built on pure array helpers
(`src/utils/array/array.ts`), with the error taxonomy of
`src/types/localStorage/ErrorLS.ts`.

Modelling conventions:
* JavaScript values are `JVal` (undefined, null, booleans, integers,
  strings, arrays, objects).  Numbers are modelled as integers: every
  claim under scrutiny uses integer data, and no claim depends on
  floating point behaviour.
* The storage medium (`localStorage`) is an association list from string
  keys to the *parsed form* of the stored text.  All writes in the source
  go through `JSON.stringify` and all reads through `JSON.parse`, which
  are mutually inverse on JSON-pure values, so the serialize/parse
  round-trip is modelled as the identity; theorems about arbitrary stored
  values carry an explicit `IsJson` side condition where that matters.
* `typeof window === "undefined"` is modelled by a boolean parameter `w`
  (`w = true` means the window object is defined).
* Each storage operation that may write returns the result envelope
  together with the storage state after the call.
-/

/-- A JavaScript runtime value as manipulated by the library: `undefined`,
`null`, booleans, numbers (modelled as integers), strings, arrays and
plain objects (ordered field lists). -/
inductive JVal where
  | undef : JVal
  | null : JVal
  | bool : Bool → JVal
  | num : Int → JVal
  | str : String → JVal
  | arr : List JVal → JVal
  | obj : List (String × JVal) → JVal
deriving Repr

mutual

/-- Structural equality of values (the derived instance is unavailable for
this nested inductive, so it is spelled out). -/
def JVal.beq : JVal → JVal → Bool
  | .undef, .undef => true
  | .null, .null => true
  | .bool a, .bool b => a == b
  | .num a, .num b => a == b
  | .str a, .str b => a == b
  | .arr xs, .arr ys => JVal.beqList xs ys
  | .obj fs, .obj gs => JVal.beqObjList fs gs
  | _, _ => false

/-- Structural equality of element lists. -/
def JVal.beqList : List JVal → List JVal → Bool
  | [], [] => true
  | x :: xs, y :: ys => JVal.beq x y && JVal.beqList xs ys
  | _, _ => false

/-- Structural equality of field lists. -/
def JVal.beqObjList : List (String × JVal) → List (String × JVal) → Bool
  | [], [] => true
  | (k, x) :: fs, (l, y) :: gs => k == l && JVal.beq x y && JVal.beqObjList fs gs
  | _, _ => false

end

namespace JVal

/-- JavaScript truthiness: `undefined`, `null`, `false`, `0` and `""` are
falsy; everything else (including `[]` and `{}`) is truthy. -/
def truthy : JVal → Bool
  | undef => false
  | null => false
  | bool b => b
  | num n => n != 0
  | str s => s ≠ ""
  | arr _ => true
  | obj _ => true

/-- `x == null` (loose equality): true exactly for `null` and `undefined`. -/
def isNullish : JVal → Bool
  | undef => true
  | null => true
  | _ => false

/-- Strict equality `===` restricted to the comparisons the library
performs.  On primitives it is value equality; on arrays and objects
JavaScript compares references, and the two operands of every `===` in
this code base come from distinct allocations (an id argument versus a
freshly parsed element), so the comparison is modelled as `false` there. -/
def strictEq : JVal → JVal → Bool
  | undef, undef => true
  | null, null => true
  | bool a, bool b => a == b
  | num a, num b => a == b
  | str a, str b => a == b
  | _, _ => false

/-- Property access `v[key]` on the values the library reads fields from:
object lookup (first matching field), `undefined` when the field is
missing or the receiver is a non-object primitive.  (Real JavaScript
throws on a `null`/`undefined` receiver; theorems over arbitrary element
lists carry a hypothesis excluding nullish elements where field access
occurs.) -/
def getField (v : JVal) (key : String) : JVal :=
  match v with
  | obj fields =>
      match fields.find? (fun p => p.1 == key) with
      | some p => p.2
      | none => undef
  | _ => undef

/-- The own enumerable fields contributed by spreading a value, as in
`{...v}`: an object's fields, index-keyed entries for arrays and strings,
nothing for primitives. -/
def spreadFields : JVal → List (String × JVal)
  | obj fields => fields
  | arr xs => xs.enum.map fun p => (toString p.1, p.2)
  | str s => s.toList.enum.map fun p => (toString p.1, JVal.str (String.mk [p.2]))
  | _ => []

/-- Extract the element list of an array value (callers have already
established `_isArray`). -/
def toArr : JVal → List JVal
  | arr xs => xs
  | _ => []

end JVal

/-- Object spread `{...a, ...b}`: the fields of `a` in order, each
overridden by `b`'s value when `b` also has the key, followed by the
fields of `b` whose keys `a` does not have, in `b`'s order. -/
def mergeFields (a b : List (String × JVal)) : List (String × JVal) :=
  (a.map fun p =>
    match b.find? (fun q => q.1 == p.1) with
    | some q => (p.1, q.2)
    | none => p)
  ++ b.filter (fun q => !(a.any (fun p => p.1 == q.1)))

/-! ## Array helpers (`src/utils/array/array.ts`)

The TypeScript helpers are declared over `T[]` but guard against
non-array and falsy inputs at runtime and return `null` in those cases,
so each is modelled on a `JVal` input returning an `Option`. -/

/-- `_isArray(arr)`: `Array.prototype.isPrototypeOf(arr)` — true exactly
for array values (false for `null`, `undefined`, primitives and plain
objects).  `Array.isArray`, used by some helpers, coincides with it on
every modelled value. -/
def _isArray : JVal → Bool
  | JVal.arr _ => true
  | _ => false

/-- `_addArray(arr, item)`: `null` when `arr` is falsy or not an array or
`item` is falsy, otherwise `[...arr, item]`. -/
def _addArray (arr item : JVal) : Option (List JVal) :=
  if !arr.truthy || !_isArray arr || !item.truthy then none
  else some (arr.toArr ++ [item])

/-- `_removeArray(arr, id)`: `null` when `arr` is falsy or not an array or
`id` is falsy, otherwise `arr.filter((a) => a.id !== id)`. -/
def _removeArray (arr id : JVal) : Option (List JVal) :=
  if !arr.truthy || !_isArray arr || !id.truthy then none
  else some (arr.toArr.filter fun a => !JVal.strictEq (a.getField "id") id)

/-- `_updateArray(arr, item)`: `null` when `arr` is falsy or not an array
or `item` is falsy, otherwise
`arr.map((a) => (a.id === item.id ? { ...a, ...item } : a))`. -/
def _updateArray (arr item : JVal) : Option (List JVal) :=
  if !arr.truthy || !_isArray arr || !item.truthy then none
  else some (arr.toArr.map fun a =>
    if JVal.strictEq (a.getField "id") (item.getField "id") then
      JVal.obj (mergeFields a.spreadFields item.spreadFields)
    else a)

/-- `_findById(arr, id)`: `null` when `arr` is not an array or falsy or
`id` is falsy; otherwise `arr.find((a) => a.id === id)`, with the found
value passed through the `if (!item) return null` guard. -/
def _findById (arr id : JVal) : Option JVal :=
  if !_isArray arr || !arr.truthy || !id.truthy then none
  else
    match arr.toArr.find? (fun a => JVal.strictEq (a.getField "id") id) with
    | none => none
    | some item => if !item.truthy then none else some item

/-- The de-duplication pipeline
`Array.from(new Set(arr.map(JSON.stringify))).map(JSON.parse)`: a `Set`
iterates in insertion order and keeps the first occurrence of each
distinct string; `JSON.stringify` is injective on JSON-pure values up to
this model's structural equality and `JSON.parse` undoes it, so the
pipeline keeps the first occurrence of each structurally distinct value,
in order of first appearance. -/
def dedupFirst (seen : List JVal) : List JVal → List JVal
  | [] => []
  | x :: xs =>
    if seen.any (fun s => JVal.beq s x) then dedupFirst seen xs
    else x :: dedupFirst (x :: seen) xs

/-- `_removeDuplicates(arr)`: `null` when `arr` is falsy or not an array,
otherwise the `Set`-based de-duplication of its elements. -/
def _removeDuplicates (arr : JVal) : Option (List JVal) :=
  if !arr.truthy || !_isArray arr then none
  else some (dedupFirst [] arr.toArr)

/-- `a.toLocaleLowerCase().localeCompare(b.toLocaleLowerCase())`, with the
locale-aware comparison modelled as code-point order on the lowercased
strings. -/
def compareCI (a b : String) : Int :=
  if a.toLower < b.toLower then -1 else if a.toLower = b.toLower then 0 else 1

/-- The comparator passed to `arr.sort` by `_ascendingOrder`: field values
that are `== null` (i.e. `null` or `undefined`) sort after everything,
numbers compare by difference, strings case-insensitively, and any other
combination compares as equal. -/
def ascCmp (key : String) (a b : JVal) : Int :=
  let av := a.getField key
  let bv := b.getField key
  if av.isNullish && bv.isNullish then 0
  else if av.isNullish then 1
  else if bv.isNullish then -1
  else
    match av, bv with
    | JVal.num x, JVal.num y => x - y
    | JVal.str x, JVal.str y => compareCI x y
    | _, _ => 0

/-- The comparator passed to `arr.sort` by `_descendingOrder`: identical
to `ascCmp` on nullish fields (they still sort last), with the numeric
and string comparisons reversed. -/
def descCmp (key : String) (a b : JVal) : Int :=
  let av := a.getField key
  let bv := b.getField key
  if av.isNullish && bv.isNullish then 0
  else if av.isNullish then 1
  else if bv.isNullish then -1
  else
    match av, bv with
    | JVal.num x, JVal.num y => y - x
    | JVal.str x, JVal.str y => compareCI y x
    | _, _ => 0

/-- Insert `x` into `ys` before the first element `y` with
`cmp x y <= 0`. -/
def insertJS (le : JVal → JVal → Bool) (x : JVal) : List JVal → List JVal
  | [] => [x]
  | y :: ys => if le x y then x :: y :: ys else y :: insertJS le x ys

/-- `arr.sort(cmp)`, modelled as a stable insertion sort (ECMAScript
requires `Array.prototype.sort` to be stable; the in-place mutation is
modelled by returning the sorted sequence). -/
def sortJS (cmp : JVal → JVal → Int) (xs : List JVal) : List JVal :=
  xs.foldr (fun x acc => insertJS (fun a b => decide (cmp a b ≤ 0)) x acc) []

/-- `_ascendingOrder(arr, key)`: `arr.sort` with the ascending comparator.
Unlike `_descendingOrder` it performs no array guard (calling it on a
non-array would throw in JavaScript, so the model takes the element list
directly); its declared `T[] | null` return type notwithstanding, it
never returns `null`. -/
def _ascendingOrder (arr : List JVal) (key : String) : List JVal :=
  sortJS (ascCmp key) arr

/-- `_descendingOrder(arr, key)`: `null` when `arr` is falsy or not an
array, otherwise `arr.sort` with the descending comparator. -/
def _descendingOrder (arr : JVal) (key : String) : Option (List JVal) :=
  if !arr.truthy || !_isArray arr then none
  else some (sortJS (descCmp key) arr.toArr)

/-! ## Error taxonomy (`src/types/localStorage/ErrorLS.ts`)

Every member of the TypeScript enum carries a distinct non-empty message
string, so every `ErrorLS` value is truthy and equality of members is
equality of constructors. -/

/-- The `ErrorLS` enum. -/
inductive ErrorLS where
  | WINDOW_IS_UNDEFINED
  | NO_KEY
  | NO_DEFAULT_VALUE
  | ALREADY_EXISTS
  | NOT_ASSOCIATED
  | UNABLE_TO_ADD
  | UNABLE_TO_UPDATE
  | UNABLE_TO_FIND
  | NOT_ARRAY_TYPE
  | ARRAY_NULL
deriving DecidableEq, Repr

/-! ## Storage wrapper (`src/utils/localStorage/localStorage.ts`) -/

/-- The `ReturnLS` result envelope `{ state, error?, variables, result? }`
(its declaration file is not part of the sources; the shape is read off
the object literals every operation returns: a success flag, an optional
error, the input parameters, and an optional payload).  The source's
`variables` field is spelled `vars` here because `variables` is a
reserved word in Lean. -/
structure ReturnLS where
  state : Bool
  error : Option ErrorLS := none
  vars : List (String × JVal) := []
  result : Option JVal := none
deriving Repr

/-- The storage medium: an association list from keys to the parsed form
of the stored text (`JSON.stringify` on write and `JSON.parse` on read
are mutually inverse on JSON-pure values and are modelled as the
identity). -/
abbrev Store := List (String × JVal)

/-- `localStorage.getItem(key)` followed by parsing: the first entry for
`key`, if any.  A stored text is `JSON.stringify` output, hence non-empty,
so the `!item` test in the source is equivalent to absence. -/
def Store.get : Store → String → Option JVal
  | [], _ => none
  | p :: s, key => if p.1 = key then some p.2 else Store.get s key

/-- Overwrite every entry for `key` in place. -/
def Store.overwrite : Store → String → JVal → Store
  | [], _, _ => []
  | p :: s, key, v => (if p.1 = key then (key, v) else p) :: Store.overwrite s key v

/-- `localStorage.setItem(key, JSON.stringify v)`: overwrite the entries
for `key` in place, or append a fresh entry. -/
def Store.set (s : Store) (key : String) (v : JVal) : Store :=
  if s.any (fun p => p.1 = key) then Store.overwrite s key v
  else s ++ [(key, v)]

/-- `_getItem(key)`.  `JSON.parse` yields the stored value; the source
returns the same envelope whether or not the parsed value is an array
(the branch exists only for typing). -/
def _getItem (w : Bool) (s : Store) (key : String) : ReturnLS :=
  let vars := [("key", JVal.str key)]
  if !w then { state := false, error := some ErrorLS.WINDOW_IS_UNDEFINED, vars := vars }
  else if key = "" then { state := false, error := some ErrorLS.NO_KEY, vars := vars }
  else
    match Store.get s key with
    | none => { state := false, error := some ErrorLS.NOT_ASSOCIATED, vars := vars }
    | some v => { state := true, vars := vars, result := some v }

/-- `_setItem(key, item)`. -/
def _setItem (w : Bool) (s : Store) (key : String) (item : JVal) : ReturnLS × Store :=
  let vars := [("key", JVal.str key), ("item", item)]
  if !w then ({ state := false, error := some ErrorLS.WINDOW_IS_UNDEFINED, vars := vars }, s)
  else if key = "" then ({ state := false, error := some ErrorLS.NO_KEY, vars := vars }, s)
  else ({ state := true, vars := vars }, Store.set s key item)

/-- `_initializeStorage(key, defaultValue)`.  The guard on the lookup
error is `error && error !== ErrorLS.NOT_ASSOCIATED` (every error value
is truthy); the already-initialized guard is literally
`result || result === null || result === false`. -/
def _initializeStorage (w : Bool) (s : Store) (key : String) (defaultValue : JVal) :
    ReturnLS × Store :=
  let vars := [("key", JVal.str key), ("defaultValue", defaultValue)]
  if !w then ({ state := false, error := some ErrorLS.WINDOW_IS_UNDEFINED, vars := vars }, s)
  else if JVal.strictEq defaultValue JVal.undef then
    ({ state := false, error := some ErrorLS.NO_DEFAULT_VALUE, vars := vars }, s)
  else
    let g := _getItem w s key
    let errBad : Bool := match g.error with
      | some e => decide (e ≠ ErrorLS.NOT_ASSOCIATED)
      | none => false
    if errBad then ({ state := false, error := g.error, vars := vars }, s)
    else
      let result := g.result.getD JVal.undef
      if result.truthy || JVal.strictEq result JVal.null
          || JVal.strictEq result (JVal.bool false) then
        ({ state := false, error := some ErrorLS.ALREADY_EXISTS, vars := vars }, s)
      else ({ state := true, vars := vars }, Store.set s key defaultValue)

/-- The result shape of `_getArray`: `Pick<ReturnLS, "error" | "result">`.
In every error branch the source sets `result: null`, and in the success
branch `result` is an array, so `none` models exactly the `null` the
callers test with `=== null`. -/
structure GetArrayRes where
  error : Option ErrorLS := none
  result : Option (List JVal) := none
deriving Repr

/-- `_getArray(key)`: read the key, propagate a read error, then check
`_isArray` before the `!oldArray.result` null-check (in that order). -/
def _getArray (w : Bool) (s : Store) (key : String) : GetArrayRes :=
  let old := _getItem w s key
  match old.error with
  | some e => { error := some e, result := none }
  | none =>
    let v := old.result.getD JVal.undef
    if !_isArray v then { error := some ErrorLS.NOT_ARRAY_TYPE, result := none }
    else if !v.truthy then { error := some ErrorLS.ARRAY_NULL, result := none }
    else { result := some v.toArr }

/-- `_pushItem(key, item)`. -/
def _pushItem (w : Bool) (s : Store) (key : String) (item : JVal) : ReturnLS × Store :=
  let vars := [("key", JVal.str key), ("item", item)]
  if !w then ({ state := false, error := some ErrorLS.WINDOW_IS_UNDEFINED, vars := vars }, s)
  else
    let oldArray := _getArray w s key
    if oldArray.error.isSome || oldArray.result.isNone then
      ({ state := false, error := oldArray.error, vars := vars }, s)
    else
      match _addArray (JVal.arr (oldArray.result.getD [])) item with
      | none => ({ state := false, error := some ErrorLS.UNABLE_TO_ADD, vars := vars }, s)
      | some newArray => ({ state := true, vars := vars }, Store.set s key (JVal.arr newArray))

/-- `JSON.stringify` of a `T[] | null` helper result: `null` serializes to
`"null"`, which parses back to `null`. -/
def arrOrNull : Option (List JVal) → JVal
  | none => JVal.null
  | some xs => JVal.arr xs

/-- `_removeItem(key, id)`: the helper result is persisted with no null
check and success is reported unconditionally. -/
def _removeItem (w : Bool) (s : Store) (key : String) (id : JVal) : ReturnLS × Store :=
  let vars := [("key", JVal.str key), ("id", id)]
  if !w then ({ state := false, error := some ErrorLS.WINDOW_IS_UNDEFINED, vars := vars }, s)
  else
    let oldArray := _getArray w s key
    if oldArray.error.isSome || oldArray.result.isNone then
      ({ state := false, error := oldArray.error, vars := vars }, s)
    else
      let newArray := _removeArray (JVal.arr (oldArray.result.getD [])) id
      ({ state := true, vars := vars }, Store.set s key (arrOrNull newArray))

/-- `_updateItem(key, updatedItem)`. -/
def _updateItem (w : Bool) (s : Store) (key : String) (updatedItem : JVal) : ReturnLS × Store :=
  let vars := [("key", JVal.str key), ("updatedItem", updatedItem)]
  if !w then ({ state := false, error := some ErrorLS.WINDOW_IS_UNDEFINED, vars := vars }, s)
  else
    let oldArray := _getArray w s key
    if oldArray.error.isSome || oldArray.result.isNone then
      ({ state := false, error := oldArray.error, vars := vars }, s)
    else
      match _updateArray (JVal.arr (oldArray.result.getD [])) updatedItem with
      | none => ({ state := false, error := some ErrorLS.UNABLE_TO_UPDATE, vars := vars }, s)
      | some newArray => ({ state := true, vars := vars }, Store.set s key (JVal.arr newArray))

/-- `_findItemById(key, id)`: the found value is re-tested with `!res`
before being returned. -/
def _findItemById (w : Bool) (s : Store) (key : String) (id : JVal) : ReturnLS :=
  let vars := [("key", JVal.str key), ("id", id)]
  if !w then { state := false, error := some ErrorLS.WINDOW_IS_UNDEFINED, vars := vars }
  else
    let oldArray := _getArray w s key
    if oldArray.error.isSome || oldArray.result.isNone then
      { state := false, error := oldArray.error, vars := vars }
    else
      match _findById (JVal.arr (oldArray.result.getD [])) id with
      | none => { state := false, error := some ErrorLS.UNABLE_TO_FIND, vars := vars }
      | some res =>
        if !res.truthy then { state := false, error := some ErrorLS.UNABLE_TO_FIND, vars := vars }
        else { state := true, vars := vars, result := some res }

/-- `_clear(key)`: overwrite the entry with serialized `null` after a
successful read. -/
def _clear (w : Bool) (s : Store) (key : String) : ReturnLS × Store :=
  let vars := [("key", JVal.str key)]
  if !w then ({ state := false, error := some ErrorLS.WINDOW_IS_UNDEFINED, vars := vars }, s)
  else
    let oldItems := _getItem w s key
    match oldItems.error with
    | some e => ({ state := false, error := some e, vars := vars }, s)
    | none => ({ state := true, vars := vars }, Store.set s key JVal.null)

/-- `_clearAll()`: `localStorage.clear()` erases every entry. -/
def _clearAll (w : Bool) (s : Store) : ReturnLS × Store :=
  if !w then ({ state := false, error := some ErrorLS.WINDOW_IS_UNDEFINED }, s)
  else ({ state := true }, [])



mutual

/-- A value is JSON-pure when it contains no `undefined` anywhere:
exactly the values on which `JSON.parse` undoes `JSON.stringify`. -/
def JVal.isJson : JVal → Bool
  | .undef => false
  | .null => true
  | .bool _ => true
  | .num _ => true
  | .str _ => true
  | .arr xs => JVal.isJsonList xs
  | .obj fs => JVal.isJsonObj fs

/-- All elements JSON-pure. -/
def JVal.isJsonList : List JVal → Bool
  | [] => true
  | x :: xs => JVal.isJson x && JVal.isJsonList xs

/-- All field values JSON-pure. -/
def JVal.isJsonObj : List (String × JVal) → Bool
  | [] => true
  | (_, x) :: fs => JVal.isJson x && JVal.isJsonObj fs

end

/-- Reference formulation of keep-first de-duplication: fold left,
appending an element only if no structurally equal element was kept
before it. -/
def firstOccurrences (xs : List JVal) : List JVal :=
  xs.foldl (fun acc x => if acc.any (fun s => JVal.beq s x) then acc else acc ++ [x]) []

/-! ## Spec-side predicates used to state the claims -/

/-- The result-envelope invariant of the specification: the success flag
is true exactly when no error code is present, and an error code present
implies the result payload is absent. -/
def envOK (r : ReturnLS) : Prop :=
  (r.state = true ↔ r.error = none) ∧ (r.error ≠ none → r.result = none)

/-- The sorted list splits into a prefix whose `key` fields are non-null
and a suffix whose `key` fields are all `null`/`undefined`: every
null-valued element is placed after every non-null-valued one. -/
def nullsLastSplit (key : String) (l : List JVal) : Prop :=
  ∃ a b, l = a ++ b ∧ (∀ x ∈ a, (x.getField key).isNullish = false) ∧
    (∀ x ∈ b, (x.getField key).isNullish = true)

/-- Whether an object value has an own field named `f`. -/
def JVal.hasField (v : JVal) (f : String) : Bool :=
  match v with
  | JVal.obj fs => fs.any (fun p => p.1 == f)
  | _ => false

mutual

theorem JVal.beq_iff : (a b : JVal) → (JVal.beq a b = true ↔ a = b)
  | .undef, b => by cases b <;> simp [JVal.beq]
  | .null, b => by cases b <;> simp [JVal.beq]
  | .bool x, b => by cases b <;> simp [JVal.beq]
  | .num x, b => by cases b <;> simp [JVal.beq]
  | .str x, b => by cases b <;> simp [JVal.beq]
  | .arr xs, b => by
      cases b <;> simp only [JVal.beq] <;> simp
      exact JVal.beqList_iff xs _
  | .obj fs, b => by
      cases b <;> simp only [JVal.beq] <;> simp
      exact JVal.beqObjList_iff fs _

theorem JVal.beqList_iff : (xs ys : List JVal) → (JVal.beqList xs ys = true ↔ xs = ys)
  | [], [] => by simp [JVal.beqList]
  | [], _ :: _ => by simp [JVal.beqList]
  | _ :: _, [] => by simp [JVal.beqList]
  | x :: xs, y :: ys => by
      simp [JVal.beqList, JVal.beq_iff x y, JVal.beqList_iff xs ys]

theorem JVal.beqObjList_iff :
    (fs gs : List (String × JVal)) → (JVal.beqObjList fs gs = true ↔ fs = gs)
  | [], [] => by simp [JVal.beqObjList]
  | [], _ :: _ => by simp [JVal.beqObjList]
  | _ :: _, [] => by simp [JVal.beqObjList]
  | (k, x) :: fs, (l, y) :: gs => by
      simp [JVal.beqObjList, JVal.beq_iff x y, JVal.beqObjList_iff fs gs,
        Prod.ext_iff, and_assoc]

end

instance : DecidableEq JVal :=
  fun a b => decidable_of_iff (JVal.beq a b = true) (JVal.beq_iff a b)

deriving instance DecidableEq for ReturnLS

deriving instance DecidableEq for GetArrayRes

/-! ## Basic lemmas about the store and the read path -/

theorem Store.get_overwrite_self (s : Store) (k : String) (v : JVal) :
    Store.get (Store.overwrite s k v) k =
      if s.any (fun p => p.1 = k) then some v else none := by
  induction s with
  | nil => simp [Store.overwrite, Store.get]
  | cons p s ih =>
    by_cases h : p.1 = k
    · simp [Store.overwrite, Store.get, h]
    · have hd : decide (p.1 = k) = false := by simp [h]
      simp only [Store.overwrite, Store.get, List.any_cons, hd, Bool.false_or]
      simp [h, ih]

theorem Store.get_append (s t : Store) (k : String) :
    Store.get (s ++ t) k = (Store.get s k).or (Store.get t k) := by
  induction s with
  | nil => simp [Store.get]
  | cons p s ih =>
    by_cases h : p.1 = k
    · simp [Store.get, h]
    · simp [Store.get, h, ih]

theorem Store.get_eq_none_of_any_false (s : Store) (k : String)
    (h : s.any (fun p => p.1 = k) = false) : Store.get s k = none := by
  induction s with
  | nil => rfl
  | cons p s ih =>
    simp only [List.any_cons, Bool.or_eq_false_iff, decide_eq_false_iff_not] at h
    simp [Store.get, h.1, ih h.2]

theorem Store.get_set_self (s : Store) (k : String) (v : JVal) :
    Store.get (Store.set s k v) k = some v := by
  unfold Store.set
  split
  · rename_i h
    simp [Store.get_overwrite_self, h]
  · rename_i h
    rw [Store.get_append,
      Store.get_eq_none_of_any_false s k (by rwa [Bool.not_eq_true] at h)]
    simp [Store.get]

theorem Store.get_overwrite_ne (s : Store) (k k' : String) (v : JVal) (h : k' ≠ k) :
    Store.get (Store.overwrite s k v) k' = Store.get s k' := by
  induction s with
  | nil => rfl
  | cons p s ih =>
    by_cases hp : p.1 = k
    · simp [Store.overwrite, Store.get, hp, Ne.symm h, ih]
    · simp [Store.overwrite, Store.get, hp, ih]

theorem Store.get_set_ne (s : Store) (k k' : String) (v : JVal) (h : k' ≠ k) :
    Store.get (Store.set s k v) k' = Store.get s k' := by
  unfold Store.set
  split
  · exact Store.get_overwrite_ne s k k' v h
  · rw [Store.get_append]
    have : Store.get [(k, v)] k' = none := by simp [Store.get, Ne.symm h]
    simp [this]

theorem getItem_of_get (s : Store) (key : String) (v : JVal) (hne : key ≠ "")
    (hk : Store.get s key = some v) :
    _getItem true s key =
      { state := true, vars := [("key", JVal.str key)], result := some v } := by
  simp [_getItem, hne, hk]

theorem getItem_error_cases (w : Bool) (s : Store) (key : String) :
    (_getItem w s key).error = none ∨
    (_getItem w s key).error = some ErrorLS.WINDOW_IS_UNDEFINED ∨
    (_getItem w s key).error = some ErrorLS.NO_KEY ∨
    (_getItem w s key).error = some ErrorLS.NOT_ASSOCIATED := by
  simp only [_getItem]
  split
  · simp
  · split
    · simp
    · cases Store.get s key <;> simp

theorem getArray_of_get_arr (s : Store) (key : String) (xs : List JVal) (hne : key ≠ "")
    (hk : Store.get s key = some (JVal.arr xs)) :
    _getArray true s key = { error := none, result := some xs } := by
  simp [_getArray, getItem_of_get s key _ hne hk, _isArray, JVal.truthy, JVal.toArr]

theorem getArray_shape (w : Bool) (s : Store) (key : String) :
    (∃ e, _getArray w s key = { error := some e, result := none }) ∨
    (∃ xs, _getArray w s key = { error := none, result := some xs }) := by
  simp only [_getArray]
  cases h : (_getItem w s key).error with
  | some e => exact Or.inl ⟨e, by simp [h]⟩
  | none =>
    simp only [h]
    split
    · exact Or.inl ⟨_, rfl⟩
    · split
      · exact Or.inl ⟨_, rfl⟩
      · exact Or.inr ⟨_, rfl⟩

theorem getArray_never_array_null (w : Bool) (s : Store) (key : String) :
    (_getArray w s key).error ≠ some ErrorLS.ARRAY_NULL := by
  simp only [_getArray]
  cases h : (_getItem w s key).error with
  | some e =>
    rcases getItem_error_cases w s key with h' | h' | h' | h' <;>
      rw [h] at h' <;> simp_all
  | none =>
    simp only [h]
    split
    · simp
    · split
      · rename_i harr htr
        cases hv : (_getItem w s key).result.getD JVal.undef <;>
          rw [hv] at harr htr <;> simp [_isArray, JVal.truthy] at harr htr ⊢
      · simp

/-! ## Claim theorems -/

/-- Claim C5: with the storage medium available, for every non-empty key
`k` and every JSON-serializable value `v`, `set(k, v)` succeeds and a
subsequent `get(k)` succeeds and returns exactly `v` (the round-trip
through serialization is the identity on JSON-pure values). -/
theorem setItem_getItem_roundtrip (s : Store) (key : String) (v : JVal)
    (hne : key ≠ "") (hv : v.isJson = true) :
    (_setItem true s key v).1.state = true ∧
    _getItem true (_setItem true s key v).2 key =
      { state := true, vars := [("key", JVal.str key)], result := some v } := by
  have h2 : (_setItem true s key v).2 = Store.set s key v := by
    simp [_setItem, hne]
  refine ⟨by simp [_setItem, hne], ?_⟩
  rw [h2]
  exact getItem_of_get _ key v hne (Store.get_set_self s key v)

/-- Witness for `setItem_getItem_roundtrip`: key `"k"`, value `"hello"`. -/
theorem setItem_getItem_roundtrip_witness :
    (_setItem true [] "k" (JVal.str "hello")).1.state = true ∧
    _getItem true (_setItem true [] "k" (JVal.str "hello")).2 "k" =
      { state := true, vars := [("key", JVal.str "k")], result := some (JVal.str "hello") } :=
  setItem_getItem_roundtrip [] "k" (JVal.str "hello") (by decide) (by decide)

/-- Claim C9: when a key holds a proper sequence and the medium is
available, `removeById` with a falsy id (the empty string or the number
`0`) reports success and persists the helper's `null` return value with
no null check, overwriting the stored sequence with `null`. -/
theorem removeItem_falsy_id_destroys (s : Store) (key : String) (xs : List JVal) (id : JVal)
    (hne : key ≠ "") (hk : Store.get s key = some (JVal.arr xs))
    (hid : id = JVal.str "" ∨ id = JVal.num 0) :
    (_removeItem true s key id).1.state = true ∧
    (_removeItem true s key id).1.error = none ∧
    Store.get (_removeItem true s key id).2 key = some JVal.null := by
  have hga := getArray_of_get_arr s key xs hne hk
  have hidt : id.truthy = false := by rcases hid with rfl | rfl <;> simp [JVal.truthy]
  have hrm : _removeArray (JVal.arr xs) id = none := by
    simp [_removeArray, hidt]
  simp [_removeItem, hga, hrm, arrOrNull, Store.get_set_self]

/-- Witness for `removeItem_falsy_id_destroys`: a one-record sequence and
the id `0`. -/
theorem removeItem_falsy_id_destroys_witness :
    (_removeItem true [("k", JVal.arr [JVal.obj [("id", JVal.str "a")]])] "k"
        (JVal.num 0)).1.state = true ∧
    (_removeItem true [("k", JVal.arr [JVal.obj [("id", JVal.str "a")]])] "k"
        (JVal.num 0)).1.error = none ∧
    Store.get (_removeItem true [("k", JVal.arr [JVal.obj [("id", JVal.str "a")]])] "k"
        (JVal.num 0)).2 "k" = some JVal.null :=
  removeItem_falsy_id_destroys [("k", JVal.arr [JVal.obj [("id", JVal.str "a")]])] "k"
    [JVal.obj [("id", JVal.str "a")]] (JVal.num 0) (by decide) (by decide) (Or.inr rfl)

theorem getItem_of_get_none (s : Store) (key : String) (hne : key ≠ "")
    (h : Store.get s key = none) :
    _getItem true s key =
      { state := false, error := some ErrorLS.NOT_ASSOCIATED,
        vars := [("key", JVal.str key)] } := by
  simp [_getItem, hne, h]

/-- Claim C1 counterexample: with the falsy default `0`, a first
`initialize("k", 0)` succeeds and a second `initialize` on the same key
succeeds again instead of failing with the already-initialized error: the
guard `result || result === null || result === false` does not catch `0`. -/
theorem initialize_twice_falsy_counterexample :
    (_initializeStorage true [] "k" (JVal.num 0)).1.state = true ∧
    (_initializeStorage true (_initializeStorage true [] "k" (JVal.num 0)).2 "k"
        (JVal.num 0)).1.state = true ∧
    (_initializeStorage true (_initializeStorage true [] "k" (JVal.num 0)).2 "k"
        (JVal.num 0)).1.error ≠ some ErrorLS.ALREADY_EXISTS := by decide

/-- Claim C1 (amended): on a key with no entry and a defined default, a
first `initialize(k, d)` succeeds; a second `initialize(k, d)` then fails
with the already-initialized error exactly when the stored `d` is truthy,
`null` or `false`; when `d` is falsy but neither `null` nor `false` (such
as `0` or the empty string) the second call succeeds again and
overwrites. -/
theorem initialize_initialize (s : Store) (key : String) (d : JVal)
    (hne : key ≠ "") (hd : JVal.strictEq d JVal.undef = false)
    (h0 : Store.get s key = none) :
    (_initializeStorage true s key d).1.state = true ∧
    ((d.truthy || JVal.strictEq d JVal.null || JVal.strictEq d (JVal.bool false)) = true →
      (_initializeStorage true (_initializeStorage true s key d).2 key d).1.state = false ∧
      (_initializeStorage true (_initializeStorage true s key d).2 key d).1.error =
        some ErrorLS.ALREADY_EXISTS) ∧
    ((d.truthy || JVal.strictEq d JVal.null || JVal.strictEq d (JVal.bool false)) = false →
      (_initializeStorage true (_initializeStorage true s key d).2 key d).1.state = true) := by
  have hg1 := getItem_of_get_none s key hne h0
  have hfirst : _initializeStorage true s key d =
      ({ state := true, vars := [("key", JVal.str key), ("defaultValue", d)] },
        Store.set s key d) := by
    have h1 : JVal.strictEq JVal.undef JVal.null = false := rfl
    have h2 : JVal.strictEq JVal.undef (JVal.bool false) = false := rfl
    have h3 : JVal.undef.truthy = false := rfl
    simp [_initializeStorage, hd, hg1, h1, h2, h3]
  have hg2 := getItem_of_get (Store.set s key d) key d hne (Store.get_set_self s key d)
  refine ⟨by simp [hfirst], ?_, ?_⟩
  · intro hcond
    rw [hfirst]
    simp [_initializeStorage, hd, hg2, hcond]
  · intro hcond
    rw [hfirst]
    simp [_initializeStorage, hd, hg2, hcond]

/-- Witness for `initialize_initialize`: the truthy default `7` on a fresh
store. -/
theorem initialize_initialize_witness :
    (_initializeStorage true [] "k" (JVal.num 7)).1.state = true ∧
    (_initializeStorage true (_initializeStorage true [] "k" (JVal.num 7)).2 "k"
        (JVal.num 7)).1.error = some ErrorLS.ALREADY_EXISTS := by
  have h := initialize_initialize [] "k" (JVal.num 7) (by decide) (by decide) rfl
  exact ⟨h.1, (h.2.1 (by decide)).2⟩

/-- Claim C3 counterexample: removing the falsy id `0` from a sequence
with no element of that id reports success but replaces the stored
sequence with `null`: the value is not left unchanged. -/
theorem removeItem_unchanged_counterexample :
    (_removeItem true [("k", JVal.arr [JVal.obj [("id", JVal.str "a")]])] "k"
        (JVal.num 0)).1.state = true ∧
    Store.get (_removeItem true [("k", JVal.arr [JVal.obj [("id", JVal.str "a")]])] "k"
        (JVal.num 0)).2 "k" ≠
      some (JVal.arr [JVal.obj [("id", JVal.str "a")]]) := by decide

/-- Claim C3 (amended): for every key holding a proper sequence and every
truthy id (a non-empty string or non-zero number) matching no element of
the sequence, `removeById` reports success and the stored value — and
every other entry — is unchanged.  (For the falsy ids `0` and `""` the
stored sequence is instead overwritten with `null`.) -/
theorem removeItem_no_match (s : Store) (key : String) (xs : List JVal) (id : JVal)
    (hne : key ≠ "") (hk : Store.get s key = some (JVal.arr xs))
    (hid : id.truthy = true)
    (hnm : ∀ x ∈ xs, JVal.strictEq (x.getField "id") id = false) :
    (_removeItem true s key id).1.state = true ∧
    Store.get (_removeItem true s key id).2 key = some (JVal.arr xs) ∧
    (∀ k', k' ≠ key → Store.get (_removeItem true s key id).2 k' = Store.get s k') := by
  have hga := getArray_of_get_arr s key xs hne hk
  have hfilter : xs.filter (fun a => !JVal.strictEq (a.getField "id") id) = xs :=
    List.filter_eq_self.mpr (by intro a ha; simp [hnm a ha])
  have hrm : _removeArray (JVal.arr xs) id = some xs := by
    simp [_removeArray, hid, hfilter, JVal.toArr]
    exact ⟨rfl, rfl⟩
  refine ⟨by simp [_removeItem, hga], ?_, ?_⟩
  · simp [_removeItem, hga, hrm, arrOrNull, Store.get_set_self]
  · intro k' hk'
    simp only [_removeItem, hga, hrm]
    simp [arrOrNull, Store.get_set_ne s key k' _ hk']

/-- Witness for `removeItem_no_match`: id `"zz"` absent from a one-record
sequence. -/
theorem removeItem_no_match_witness :
    (_removeItem true [("k", JVal.arr [JVal.obj [("id", JVal.str "a")]])] "k"
        (JVal.str "zz")).1.state = true ∧
    Store.get (_removeItem true [("k", JVal.arr [JVal.obj [("id", JVal.str "a")]])] "k"
        (JVal.str "zz")).2 "k" = some (JVal.arr [JVal.obj [("id", JVal.str "a")]]) := by
  have h := removeItem_no_match [("k", JVal.arr [JVal.obj [("id", JVal.str "a")]])] "k"
    [JVal.obj [("id", JVal.str "a")]] (JVal.str "zz") (by decide) (by decide) (by decide)
    (by decide)
  exact ⟨h.1, h.2.1⟩

/-- Claim C4 counterexample: with `null` stored under `"k"`, `push` fails
with the value-not-a-sequence code `NOT_ARRAY_TYPE`, not the
sequence-is-null code `ARRAY_NULL` the claim requires. -/
theorem null_entry_error_counterexample :
    (_pushItem true [("k", JVal.null)] "k" (JVal.num 1)).1.error =
        some ErrorLS.NOT_ARRAY_TYPE ∧
    (_pushItem true [("k", JVal.null)] "k" (JVal.num 1)).1.error ≠
        some ErrorLS.ARRAY_NULL := by decide

/-- Claim C4 (amended): for every key whose stored entry deserializes to
an explicit `null`, each of `push`, `removeById`, `updateById` and
`findById` fails with the value-not-a-sequence code `NOT_ARRAY_TYPE`
(because `_isArray(null)` is false the `NOT_ARRAY_TYPE` guard fires
first), and the sequence-retrieval contract can never produce the
`ARRAY_NULL` code at all. -/
theorem null_entry_not_array_type (s : Store) (key : String)
    (hne : key ≠ "") (hk : Store.get s key = some JVal.null) :
    (∀ item, (_pushItem true s key item).1.state = false ∧
      (_pushItem true s key item).1.error = some ErrorLS.NOT_ARRAY_TYPE) ∧
    (∀ id, (_removeItem true s key id).1.state = false ∧
      (_removeItem true s key id).1.error = some ErrorLS.NOT_ARRAY_TYPE) ∧
    (∀ u, (_updateItem true s key u).1.state = false ∧
      (_updateItem true s key u).1.error = some ErrorLS.NOT_ARRAY_TYPE) ∧
    (∀ id, (_findItemById true s key id).state = false ∧
      (_findItemById true s key id).error = some ErrorLS.NOT_ARRAY_TYPE) ∧
    (∀ w' s' k', (_getArray w' s' k').error ≠ some ErrorLS.ARRAY_NULL) := by
  have hga : _getArray true s key =
      { error := some ErrorLS.NOT_ARRAY_TYPE, result := none } := by
    simp [_getArray, getItem_of_get s key _ hne hk, _isArray]
  refine ⟨fun item => ?_, fun id => ?_, fun u => ?_, fun id => ?_,
    fun w' s' k' => getArray_never_array_null w' s' k'⟩
  · simp [_pushItem, hga]
  · simp [_removeItem, hga]
  · simp [_updateItem, hga]
  · simp [_findItemById, hga]

/-- Witness for `null_entry_not_array_type`: a store holding `null` under
`"k"`. -/
theorem null_entry_not_array_type_witness :
    (_updateItem true [("k", JVal.null)] "k" (JVal.obj [("id", JVal.num 1)])).1.error =
      some ErrorLS.NOT_ARRAY_TYPE :=
  ((null_entry_not_array_type [("k", JVal.null)] "k" (by decide) (by decide)).2.2.1
    (JVal.obj [("id", JVal.num 1)])).2

theorem getItem_success_inv (w : Bool) (s : Store) (key : String)
    (h : (_getItem w s key).error = none) :
    w = true ∧ key ≠ "" ∧ ∃ v, Store.get s key = some v ∧
      _getItem w s key =
        { state := true, vars := [("key", JVal.str key)], result := some v } := by
  cases w with
  | false => simp [_getItem] at h
  | true =>
    by_cases hne : key = ""
    · simp [_getItem, hne] at h
    · cases hg : Store.get s key with
      | none => simp [_getItem, hne, hg] at h
      | some v => exact ⟨rfl, hne, v, rfl, getItem_of_get s key v hne hg⟩

theorem getArray_error_of_bad (s : Store) (key : String)
    (h : Store.get s key = none ∨ (∃ v, Store.get s key = some v ∧ _isArray v = false)) :
    ∃ e, _getArray true s key = { error := some e, result := none } := by
  rcases getArray_shape true s key with he | ⟨xs, hxs⟩
  · exact he
  · exfalso
    have hgi : (_getItem true s key).error = none := by
      by_contra hno
      obtain ⟨e, he⟩ := Option.ne_none_iff_exists'.mp hno
      have : (_getArray true s key).error = some e := by
        simp only [_getArray, he]
      rw [hxs] at this
      simp at this
    obtain ⟨-, hne, v, hg, hitem⟩ := getItem_success_inv true s key hgi
    rcases h with hnone | ⟨v', hg', hnarr⟩
    · rw [hg] at hnone; exact Option.noConfusion hnone
    · rw [hg] at hg'
      injection hg' with hv
      subst hv
      have : _getArray true s key =
          { error := some ErrorLS.NOT_ARRAY_TYPE, result := none } := by
        simp [_getArray, hitem, hnarr]
      rw [this] at hxs
      simp at hxs

/-- Claim C7: `push` on a key with no entry or with a non-sequence stored
value fails and leaves the storage medium exactly as it was; moreover no
failure path of `push` performs any write at all. -/
theorem pushItem_fail_no_mutate (w : Bool) (s : Store) (key : String) (item : JVal) :
    ((Store.get s key = none ∨ (∃ v, Store.get s key = some v ∧ _isArray v = false)) →
      (_pushItem w s key item).1.state = false ∧ (_pushItem w s key item).2 = s) ∧
    ((_pushItem w s key item).1.state = false → (_pushItem w s key item).2 = s) := by
  constructor
  · intro h
    cases w with
    | false => exact ⟨by simp [_pushItem], by simp [_pushItem]⟩
    | true =>
      obtain ⟨e, he⟩ := getArray_error_of_bad s key h
      exact ⟨by simp [_pushItem, he], by simp [_pushItem, he]⟩
  · intro hfail
    cases w with
    | false => simp [_pushItem]
    | true =>
      rcases getArray_shape true s key with ⟨e, he⟩ | ⟨xs, hxs⟩
      · simp [_pushItem, he]
      · cases ha : _addArray (JVal.arr xs) item with
        | none => simp [_pushItem, hxs, ha]
        | some ys =>
          exfalso
          simp [_pushItem, hxs, ha] at hfail

/-- Witness for `pushItem_fail_no_mutate`: `push` on an empty store. -/
theorem pushItem_fail_no_mutate_witness :
    (_pushItem true [] "k" (JVal.num 1)).1.state = false ∧
    (_pushItem true [] "k" (JVal.num 1)).2 = [] :=
  (pushItem_fail_no_mutate true [] "k" (JVal.num 1)).1 (Or.inl rfl)

theorem envOK_fail (e : ErrorLS) (vs : List (String × JVal)) :
    envOK { state := false, error := some e, vars := vs } :=
  ⟨by simp, fun _ => rfl⟩

theorem envOK_ok (vs : List (String × JVal)) (res : Option JVal) :
    envOK { state := true, vars := vs, result := res } :=
  ⟨by simp, by simp⟩

theorem envOK_getItem (w : Bool) (s : Store) (key : String) :
    envOK (_getItem w s key) := by
  simp only [_getItem]
  split
  · exact envOK_fail _ _
  · split
    · exact envOK_fail _ _
    · split
      · exact envOK_fail _ _
      · exact envOK_ok _ _

theorem envOK_setItem (w : Bool) (s : Store) (key : String) (v : JVal) :
    envOK (_setItem w s key v).1 := by
  simp only [_setItem]
  split
  · exact envOK_fail _ _
  · split
    · exact envOK_fail _ _
    · exact envOK_ok _ _

theorem envOK_initializeStorage (w : Bool) (s : Store) (key : String) (d : JVal) :
    envOK (_initializeStorage w s key d).1 := by
  simp only [_initializeStorage]
  split
  · exact envOK_fail _ _
  · split
    · exact envOK_fail _ _
    · cases hg : (_getItem w s key).error with
      | some e =>
        simp only [hg]
        split
        · exact envOK_fail _ _
        · split
          · exact envOK_fail _ _
          · exact envOK_ok _ _
      | none =>
        simp [hg]
        split
        · exact envOK_fail _ _
        · exact envOK_ok _ _

theorem envOK_pushItem (w : Bool) (s : Store) (key : String) (item : JVal) :
    envOK (_pushItem w s key item).1 := by
  cases w with
  | false => exact envOK_fail _ _
  | true =>
    rcases getArray_shape true s key with ⟨e, he⟩ | ⟨xs, hxs⟩
    · have h1 : (_pushItem true s key item).1 =
          { state := false, error := some e,
            vars := [("key", JVal.str key), ("item", item)] } := by
        simp [_pushItem, he]
      rw [h1]; exact envOK_fail _ _
    · cases ha : _addArray (JVal.arr xs) item with
      | none =>
        have h1 : (_pushItem true s key item).1 =
            { state := false, error := some ErrorLS.UNABLE_TO_ADD,
              vars := [("key", JVal.str key), ("item", item)] } := by
          simp [_pushItem, hxs, ha]
        rw [h1]; exact envOK_fail _ _
      | some ys =>
        have h1 : (_pushItem true s key item).1 =
            { state := true, vars := [("key", JVal.str key), ("item", item)] } := by
          simp [_pushItem, hxs, ha]
        rw [h1]; exact envOK_ok _ _

theorem envOK_removeItem (w : Bool) (s : Store) (key : String) (id : JVal) :
    envOK (_removeItem w s key id).1 := by
  rcases getArray_shape w s key with ⟨e, he⟩ | ⟨xs, hxs⟩
  · simp only [_removeItem, he]
    split
    · exact envOK_fail _ _
    · simp only [Option.isSome_some, Bool.true_or, if_true]
      exact envOK_fail _ _
  · simp only [_removeItem, hxs]
    split
    · exact envOK_fail _ _
    · simp only [Option.isSome_none, Option.isNone_some, Bool.or_self, if_false]
      exact envOK_ok _ _

theorem envOK_updateItem (w : Bool) (s : Store) (key : String) (u : JVal) :
    envOK (_updateItem w s key u).1 := by
  cases w with
  | false => exact envOK_fail _ _
  | true =>
    rcases getArray_shape true s key with ⟨e, he⟩ | ⟨xs, hxs⟩
    · have h1 : (_updateItem true s key u).1 =
          { state := false, error := some e,
            vars := [("key", JVal.str key), ("updatedItem", u)] } := by
        simp [_updateItem, he]
      rw [h1]; exact envOK_fail _ _
    · cases ha : _updateArray (JVal.arr xs) u with
      | none =>
        have h1 : (_updateItem true s key u).1 =
            { state := false, error := some ErrorLS.UNABLE_TO_UPDATE,
              vars := [("key", JVal.str key), ("updatedItem", u)] } := by
          simp [_updateItem, hxs, ha]
        rw [h1]; exact envOK_fail _ _
      | some ys =>
        have h1 : (_updateItem true s key u).1 =
            { state := true, vars := [("key", JVal.str key), ("updatedItem", u)] } := by
          simp [_updateItem, hxs, ha]
        rw [h1]; exact envOK_ok _ _

theorem envOK_findItemById (w : Bool) (s : Store) (key : String) (id : JVal) :
    envOK (_findItemById w s key id) := by
  cases w with
  | false => exact envOK_fail _ _
  | true =>
    rcases getArray_shape true s key with ⟨e, he⟩ | ⟨xs, hxs⟩
    · have h1 : _findItemById true s key id =
          { state := false, error := some e,
            vars := [("key", JVal.str key), ("id", id)] } := by
        simp [_findItemById, he]
      rw [h1]; exact envOK_fail _ _
    · cases hf : _findById (JVal.arr xs) id with
      | none =>
        have h1 : _findItemById true s key id =
            { state := false, error := some ErrorLS.UNABLE_TO_FIND,
              vars := [("key", JVal.str key), ("id", id)] } := by
          simp [_findItemById, hxs, hf]
        rw [h1]; exact envOK_fail _ _
      | some res =>
        cases ht : res.truthy with
        | false =>
          have h1 : _findItemById true s key id =
              { state := false, error := some ErrorLS.UNABLE_TO_FIND,
                vars := [("key", JVal.str key), ("id", id)] } := by
            simp [_findItemById, hxs, hf, ht]
          rw [h1]; exact envOK_fail _ _
        | true =>
          have h1 : _findItemById true s key id =
              { state := true, vars := [("key", JVal.str key), ("id", id)],
                result := some res } := by
            simp [_findItemById, hxs, hf, ht]
          rw [h1]; exact envOK_ok _ _

theorem envOK_clear (w : Bool) (s : Store) (key : String) :
    envOK (_clear w s key).1 := by
  simp only [_clear]
  split
  · exact envOK_fail _ _
  · split
    · exact envOK_fail _ _
    · exact envOK_ok _ _

theorem envOK_clearAll (w : Bool) (s : Store) :
    envOK (_clearAll w s).1 := by
  simp only [_clearAll]
  split
  · exact envOK_fail _ _
  · exact ⟨by simp, by simp⟩

/-- Claim C2: every public storage-wrapper operation (`initialize`, `get`,
`set`, `push`, `removeById`, `updateById`, `findById`, `clear`,
`clearAll`) returns a `ReturnLS` envelope in which the success flag is
true iff no error code is present, and an error code present implies the
result payload is absent. -/
theorem all_ops_envelope_invariant :
    (∀ w s key d, envOK (_initializeStorage w s key d).1) ∧
    (∀ w s key, envOK (_getItem w s key)) ∧
    (∀ w s key v, envOK (_setItem w s key v).1) ∧
    (∀ w s key item, envOK (_pushItem w s key item).1) ∧
    (∀ w s key id, envOK (_removeItem w s key id).1) ∧
    (∀ w s key u, envOK (_updateItem w s key u).1) ∧
    (∀ w s key id, envOK (_findItemById w s key id)) ∧
    (∀ w s key, envOK (_clear w s key).1) ∧
    (∀ w s, envOK (_clearAll w s).1) :=
  ⟨envOK_initializeStorage, envOK_getItem, envOK_setItem, envOK_pushItem,
    envOK_removeItem, envOK_updateItem, envOK_findItemById, envOK_clear, envOK_clearAll⟩

/-- Witness for `all_ops_envelope_invariant`: the invariant holds of a
concrete successful `get` and a concrete failing `push`. -/
theorem all_ops_envelope_invariant_witness :
    envOK (_getItem true [("k", JVal.num 3)] "k") ∧
    envOK (_pushItem true [] "k" (JVal.num 1)).1 :=
  ⟨all_ops_envelope_invariant.2.1 true [("k", JVal.num 3)] "k",
    all_ops_envelope_invariant.2.2.2.1 true [] "k" (JVal.num 1)⟩

/-! ## Lemmas about object merge (for `updateById`) -/

theorem find_filter_congr {α : Type} (l : List α) (p r1 r2 : α → Bool)
    (h : ∀ x, p x = true → r1 x = r2 x) :
    (l.filter r1).find? p = (l.filter r2).find? p := by
  induction l with
  | nil => rfl
  | cons x l ih =>
    rw [List.filter_cons, List.filter_cons]
    by_cases hp : p x = true
    · rw [h x hp]
      cases h2 : r2 x with
      | true => simp [h2, List.find?_cons_of_pos, hp]
      | false => simp [h2, ih]
    · have hp' : p x = false := by simpa using hp
      cases h1 : r1 x <;> cases h2 : r2 x <;>
        simp [h1, h2, List.find?_cons_of_neg, hp', ih]

theorem mergeFields_find? (fa fb : List (String × JVal)) (f : String) :
    (mergeFields fa fb).find? (fun p => p.1 == f) =
      match fa.find? (fun p => p.1 == f) with
      | some pa =>
        match fb.find? (fun q => q.1 == f) with
        | some qb => some (pa.1, qb.2)
        | none => some pa
      | none => fb.find? (fun q => q.1 == f) := by
  induction fa with
  | nil =>
    simp only [mergeFields, List.map_nil, List.nil_append, List.find?_nil]
    have : (fb.filter fun q => !([] : List (String × JVal)).any (fun p => p.1 == q.1)) = fb := by
      simp
    rw [this]
  | cons p fa ih =>
    by_cases hp : p.1 = f
    · simp only [mergeFields, List.map_cons, List.cons_append]
      rw [List.find?_cons_of_pos _ (by
        cases hfb : fb.find? (fun q => q.1 == p.1) <;> simp [hfb, hp]),
        List.find?_cons_of_pos _ (by simp [hp])]
      subst hp
      cases hfb : fb.find? (fun q => q.1 == p.1) <;> simp [hfb]
    · simp only [mergeFields, List.map_cons, List.cons_append]
      rw [List.find?_cons_of_neg _ (by
        cases hfb : fb.find? (fun q => q.1 == p.1) <;> simp [hfb, hp]),
        List.find?_cons_of_neg _ (by simp [hp])]
      have hfc : (fb.filter fun q => !((p :: fa).any fun r => r.1 == q.1)).find?
            (fun q => q.1 == f) =
          (fb.filter fun q => !(fa.any fun r => r.1 == q.1)).find? (fun q => q.1 == f) := by
        apply find_filter_congr
        intro x hx
        have hxf : x.1 = f := by simpa using hx
        simp [List.any_cons, hxf, hp]
      simp only [mergeFields] at ih
      rw [List.find?_append, hfc, ← List.find?_append]
      exact ih

theorem getField_mergeFields (fa fb : List (String × JVal)) (f : String) :
    (JVal.obj (mergeFields fa fb)).getField f =
      if (JVal.obj fb).hasField f = true then (JVal.obj fb).getField f
      else (JVal.obj fa).getField f := by
  have hb : (JVal.obj fb).hasField f = (fb.find? (fun q => q.1 == f)).isSome := by
    simp only [JVal.hasField]
    cases hfb : fb.find? (fun q => q.1 == f) with
    | none =>
      have := List.find?_eq_none.mp hfb
      simp only [Option.isSome_none]
      rw [List.any_eq_false]
      intro x hx
      simpa using this x hx
    | some q =>
      simp only [Option.isSome_some]
      have h1 := List.find?_some hfb
      exact List.any_eq_true.mpr ⟨q, List.mem_of_find?_eq_some hfb, h1⟩
  simp only [JVal.getField, mergeFields_find?, hb]
  cases hfa : fa.find? (fun p => p.1 == f) <;> cases hfb : fb.find? (fun q => q.1 == f) <;>
    simp [hfa, hfb]

theorem forall₂_map_self {R : JVal → JVal → Prop} (g : JVal → JVal) :
    ∀ (xs : List JVal), (∀ x ∈ xs, R x (g x)) → List.Forall₂ R xs (xs.map g)
  | [], _ => List.Forall₂.nil
  | x :: xs, h =>
    List.Forall₂.cons (h x (by simp))
      (forall₂_map_self g xs fun y hy => h y (by simp [hy]))

/-- Claim C6: for a key holding a sequence of records and a non-absent
partial record `p`, `updateById` succeeds and persists the sequence in
which each element whose id strictly equals `p.id` is shallow-merged with
`p` — every field present in `p` takes `p`'s value, every other field
keeps the element's value — and every other element is unchanged; in
particular updating `[{id:1,name:"A",age:5}]` with `{id:1,name:"B"}`
persists `[{id:1,name:"B",age:5}]`. -/
theorem updateItem_merges (s : Store) (key : String) (xs : List JVal)
    (fp : List (String × JVal))
    (hne : key ≠ "") (hk : Store.get s key = some (JVal.arr xs))
    (hrec : ∀ x ∈ xs, x = JVal.obj x.spreadFields) :
    (_updateItem true s key (JVal.obj fp)).1.state = true ∧
    (∃ ys, Store.get (_updateItem true s key (JVal.obj fp)).2 key = some (JVal.arr ys) ∧
      List.Forall₂ (fun a m =>
        if JVal.strictEq (a.getField "id") ((JVal.obj fp).getField "id") = true then
          ∀ f, m.getField f =
            if (JVal.obj fp).hasField f = true then (JVal.obj fp).getField f
            else a.getField f
        else m = a) xs ys) ∧
    Store.get (_updateItem true
        [("users", JVal.arr [JVal.obj [("id", JVal.num 1), ("name", JVal.str "A"),
          ("age", JVal.num 5)]])]
        "users" (JVal.obj [("id", JVal.num 1), ("name", JVal.str "B")])).2 "users" =
      some (JVal.arr [JVal.obj [("id", JVal.num 1), ("name", JVal.str "B"),
        ("age", JVal.num 5)]]) := by
  have hga := getArray_of_get_arr s key xs hne hk
  have hupd : _updateArray (JVal.arr xs) (JVal.obj fp) =
      some (xs.map fun a =>
        if JVal.strictEq (a.getField "id") ((JVal.obj fp).getField "id") then
          JVal.obj (mergeFields a.spreadFields (JVal.obj fp).spreadFields)
        else a) := by
    simp [_updateArray, JVal.truthy, _isArray, JVal.toArr]
  refine ⟨?_, ⟨xs.map (fun a =>
      if JVal.strictEq (a.getField "id") ((JVal.obj fp).getField "id") then
        JVal.obj (mergeFields a.spreadFields (JVal.obj fp).spreadFields)
      else a), ?_, ?_⟩, ?_⟩
  · simp [_updateItem, hga, hupd]
  · simp [_updateItem, hga, hupd, Store.get_set_self]
  · apply forall₂_map_self
    intro a ha
    by_cases hid : JVal.strictEq (a.getField "id") ((JVal.obj fp).getField "id") = true
    · rw [if_pos hid, if_pos hid]
      intro f
      rw [getField_mergeFields]
      have hsp : (JVal.obj fp).spreadFields = fp := rfl
      rw [hsp, ← hrec a ha]
    · rw [if_neg hid, if_neg hid]
  · decide

/-- Witness for `updateItem_merges`: the example record store. -/
theorem updateItem_merges_witness :
    (_updateItem true [("users", JVal.arr [JVal.obj [("id", JVal.num 1),
        ("name", JVal.str "A"), ("age", JVal.num 5)]])] "users"
        (JVal.obj [("id", JVal.num 1), ("name", JVal.str "B")])).1.state = true :=
  (updateItem_merges [("users", JVal.arr [JVal.obj [("id", JVal.num 1),
      ("name", JVal.str "A"), ("age", JVal.num 5)]])] "users"
    [JVal.obj [("id", JVal.num 1), ("name", JVal.str "A"), ("age", JVal.num 5)]]
    [("id", JVal.num 1), ("name", JVal.str "B")]
    (by decide) (by decide) (by decide)).1

/-! ## Lemmas about the sort comparators (nulls last) -/

theorem mem_insertJS (le : JVal → JVal → Bool) (x : JVal) (l : List JVal) (z : JVal) :
    z ∈ insertJS le x l ↔ z = x ∨ z ∈ l := by
  induction l with
  | nil => simp [insertJS]
  | cons y ys ih =>
    simp only [insertJS]
    split
    · simp [List.mem_cons]
    · simp only [List.mem_cons, ih]
      tauto

theorem insertJS_pairwise (P : JVal → Bool) (le : JVal → JVal → Bool)
    (h1 : ∀ x y, P x = false → P y = true → le x y = true)
    (h2 : ∀ x y, P x = true → P y = false → le x y = false)
    (x : JVal) (l : List JVal)
    (hl : l.Pairwise fun a b => P a = true → P b = true) :
    (insertJS le x l).Pairwise fun a b => P a = true → P b = true := by
  induction l with
  | nil => simp [insertJS]
  | cons y ys ih =>
    simp only [insertJS]
    split
    · rename_i hle
      refine List.Pairwise.cons ?_ hl
      intro z hz hPx
      have hPy : P y = true := by
        by_contra hPy
        rw [h2 x y hPx (by simpa using hPy)] at hle
        exact Bool.noConfusion hle
      rcases List.mem_cons.mp hz with rfl | hz'
      · exact hPy
      · exact (List.pairwise_cons.mp hl).1 z hz' hPy
    · rename_i hle
      have hl' := List.pairwise_cons.mp hl
      refine List.Pairwise.cons ?_ (ih hl'.2)
      intro z hz hPy
      rcases (mem_insertJS le x ys z).mp hz with rfl | hz'
      · by_contra hPz
        exact hle (h1 z y (by simpa using hPz) hPy)
      · exact hl'.1 z hz' hPy

theorem sortJS_pairwise (P : JVal → Bool) (cmp : JVal → JVal → Int)
    (h1 : ∀ x y, P x = false → P y = true → cmp x y ≤ 0)
    (h2 : ∀ x y, P x = true → P y = false → 0 < cmp x y)
    (xs : List JVal) :
    (sortJS cmp xs).Pairwise fun a b => P a = true → P b = true := by
  unfold sortJS
  induction xs with
  | nil => simp
  | cons x xs ih =>
    simp only [List.foldr_cons]
    refine insertJS_pairwise P _ ?_ ?_ x _ ih
    · intro a b ha hb
      exact decide_eq_true (h1 a b ha hb)
    · intro a b ha hb
      simpa using not_le.mpr (h2 a b ha hb)

theorem pairwise_split (P : JVal → Bool) :
    ∀ l : List JVal, (l.Pairwise fun a b => P a = true → P b = true) →
      ∃ a b, l = a ++ b ∧ (∀ x ∈ a, P x = false) ∧ (∀ x ∈ b, P x = true)
  | [], _ => ⟨[], [], rfl, by simp, by simp⟩
  | x :: l, h => by
    have h' := List.pairwise_cons.mp h
    cases hP : P x with
    | false =>
      obtain ⟨a, b, hab, ha, hb⟩ := pairwise_split P l h'.2
      refine ⟨x :: a, b, by rw [hab]; rfl, ?_, hb⟩
      intro z hz
      rcases List.mem_cons.mp hz with rfl | hz'
      · exact hP
      · exact ha z hz'
    | true =>
      refine ⟨[], x :: l, rfl, by simp, ?_⟩
      intro z hz
      rcases List.mem_cons.mp hz with rfl | hz'
      · exact hP
      · exact h'.1 z hz' hP

theorem ascCmp_nonnull_null (key : String) (x y : JVal)
    (hx : (x.getField key).isNullish = false) (hy : (y.getField key).isNullish = true) :
    ascCmp key x y ≤ 0 := by
  simp [ascCmp, hx, hy]

theorem ascCmp_null_nonnull (key : String) (x y : JVal)
    (hx : (x.getField key).isNullish = true) (hy : (y.getField key).isNullish = false) :
    0 < ascCmp key x y := by
  simp [ascCmp, hx, hy]

theorem descCmp_nonnull_null (key : String) (x y : JVal)
    (hx : (x.getField key).isNullish = false) (hy : (y.getField key).isNullish = true) :
    descCmp key x y ≤ 0 := by
  simp [descCmp, hx, hy]

theorem descCmp_null_nonnull (key : String) (x y : JVal)
    (hx : (x.getField key).isNullish = true) (hy : (y.getField key).isNullish = false) :
    0 < descCmp key x y := by
  simp [descCmp, hx, hy]

/-- Claim C8: for every array (of elements on which field access is
defined, i.e. non-nullish elements) and every sort key, both
`ascendingOrder` and `descendingOrder` place every element whose `key`
field is `null` or `undefined` after every element with a non-null field
value; in particular sorting `[{v:null},{v:2},{v:1}]` by `"v"` puts the
null-valued element last in both directions. -/
theorem sort_nulls_last (xs : List JVal) (key : String)
    (hx : ∀ x ∈ xs, x.isNullish = false) :
    nullsLastSplit key (_ascendingOrder xs key) ∧
    (∀ ys, _descendingOrder (JVal.arr xs) key = some ys → nullsLastSplit key ys) ∧
    _ascendingOrder [JVal.obj [("v", JVal.null)], JVal.obj [("v", JVal.num 2)],
        JVal.obj [("v", JVal.num 1)]] "v" =
      [JVal.obj [("v", JVal.num 1)], JVal.obj [("v", JVal.num 2)],
        JVal.obj [("v", JVal.null)]] ∧
    _descendingOrder (JVal.arr [JVal.obj [("v", JVal.null)], JVal.obj [("v", JVal.num 2)],
        JVal.obj [("v", JVal.num 1)]]) "v" =
      some [JVal.obj [("v", JVal.num 2)], JVal.obj [("v", JVal.num 1)],
        JVal.obj [("v", JVal.null)]] := by
  refine ⟨?_, ?_, by decide, by decide⟩
  · exact pairwise_split _ _
      (sortJS_pairwise _ (ascCmp key) (ascCmp_nonnull_null key) (ascCmp_null_nonnull key) xs)
  · intro ys hys
    have hys' : ys = sortJS (descCmp key) xs := by
      simp [_descendingOrder, JVal.truthy, _isArray, JVal.toArr] at hys
      exact hys.symm
    rw [hys']
    exact pairwise_split _ _
      (sortJS_pairwise _ (descCmp key) (descCmp_nonnull_null key) (descCmp_null_nonnull key) xs)

/-- Witness for `sort_nulls_last`: the example array from the claim. -/
theorem sort_nulls_last_witness :
    nullsLastSplit "v" (_ascendingOrder [JVal.obj [("v", JVal.null)],
      JVal.obj [("v", JVal.num 2)], JVal.obj [("v", JVal.num 1)]] "v") :=
  (sort_nulls_last [JVal.obj [("v", JVal.null)], JVal.obj [("v", JVal.num 2)],
      JVal.obj [("v", JVal.num 1)]] "v" (by decide)).1

/-! ## Lemmas about the de-duplication pipeline -/

theorem dedupFirst_eq_foldl_aux (xs : List JVal) :
    ∀ (seen acc : List JVal),
      (∀ a, seen.any (fun s => JVal.beq s a) = acc.any (fun s => JVal.beq s a)) →
      acc ++ dedupFirst seen xs =
        xs.foldl (fun acc x =>
          if acc.any (fun s => JVal.beq s x) then acc else acc ++ [x]) acc := by
  induction xs with
  | nil => intro seen acc _; simp [dedupFirst]
  | cons x xs ih =>
    intro seen acc hagree
    simp only [dedupFirst, List.foldl_cons]
    cases h : seen.any (fun s => JVal.beq s x) with
    | true =>
      have hacc : acc.any (fun s => JVal.beq s x) = true := (hagree x) ▸ h
      simp only [h, hacc, if_true]
      exact ih seen acc hagree
    | false =>
      have hacc : acc.any (fun s => JVal.beq s x) = false := (hagree x) ▸ h
      simp only [h, hacc, Bool.false_eq_true, if_false]
      have hsplit : acc ++ x :: dedupFirst (x :: seen) xs =
          (acc ++ [x]) ++ dedupFirst (x :: seen) xs := by simp
      rw [hsplit]
      apply ih
      intro a
      simp [List.any_cons, hagree a, Bool.or_comm]

theorem dedupFirst_eq_firstOccurrences (xs : List JVal) :
    dedupFirst [] xs = firstOccurrences xs := by
  have h := dedupFirst_eq_foldl_aux xs [] [] (fun a => rfl)
  simpa [firstOccurrences] using h

theorem dedupFirst_sublist : ∀ (seen xs : List JVal), (dedupFirst seen xs).Sublist xs
  | _, [] => List.nil_sublist []
  | seen, x :: xs => by
    simp only [dedupFirst]
    split
    · exact List.Sublist.cons x (dedupFirst_sublist seen xs)
    · exact List.Sublist.cons₂ x (dedupFirst_sublist (x :: seen) xs)

theorem mem_dedupFirst (z : JVal) : ∀ (xs seen : List JVal),
    z ∈ dedupFirst seen xs ↔ (z ∈ xs ∧ z ∉ seen)
  | [], seen => by simp [dedupFirst]
  | x :: xs, seen => by
    simp only [dedupFirst]
    split
    · rename_i h
      rw [mem_dedupFirst z xs seen]
      have hx : x ∈ seen := by
        obtain ⟨s, hs, hbeq⟩ := List.any_eq_true.mp h
        rw [JVal.beq_iff] at hbeq
        rwa [hbeq] at hs
      constructor
      · rintro ⟨hzxs, hzseen⟩
        exact ⟨List.mem_cons_of_mem x hzxs, hzseen⟩
      · rintro ⟨hzcons, hzseen⟩
        rcases List.mem_cons.mp hzcons with rfl | hzxs
        · exact absurd hx hzseen
        · exact ⟨hzxs, hzseen⟩
    · rename_i h
      have hx : x ∉ seen := by
        intro hmem
        exact h (List.any_eq_true.mpr ⟨x, hmem, by rw [JVal.beq_iff]⟩)
      simp only [List.mem_cons, mem_dedupFirst z xs (x :: seen)]
      constructor
      · rintro (rfl | ⟨hzxs, hzseen⟩)
        · exact ⟨Or.inl rfl, hx⟩
        · exact ⟨Or.inr hzxs, fun hseen => hzseen (Or.inr hseen)⟩
      · rintro ⟨hzcons, hzseen⟩
        rcases hzcons with rfl | hzxs
        · exact Or.inl rfl
        · by_cases hzx : z = x
          · exact Or.inl hzx
          · refine Or.inr ⟨hzxs, ?_⟩
            rintro (h1 | h1)
            · exact hzx h1
            · exact hzseen h1

theorem dedupFirst_nodup : ∀ (xs seen : List JVal), (dedupFirst seen xs).Nodup
  | [], _ => List.nodup_nil
  | x :: xs, seen => by
    simp only [dedupFirst]
    split
    · exact dedupFirst_nodup xs seen
    · refine List.nodup_cons.mpr ⟨?_, dedupFirst_nodup xs (x :: seen)⟩
      intro hmem
      exact ((mem_dedupFirst x xs (x :: seen)).mp hmem).2 (List.mem_cons_self x seen)

/-- Claim C10: on a JSON-pure array, `removeDuplicates` keeps exactly the
first occurrence of each structurally distinct value in the relative
order of those first occurrences: it returns a duplicate-free sublist of
the input that contains every input value and equals the left fold which
appends each element not already kept. -/
theorem removeDuplicates_first_occurrences (xs : List JVal)
    (hx : ∀ x ∈ xs, x.isJson = true) :
    ∃ ys, _removeDuplicates (JVal.arr xs) = some ys ∧
      ys.Sublist xs ∧ ys.Nodup ∧ (∀ x, x ∈ ys ↔ x ∈ xs) ∧
      ys = firstOccurrences xs := by
  refine ⟨dedupFirst [] xs, ?_, dedupFirst_sublist [] xs, dedupFirst_nodup xs [], ?_,
    dedupFirst_eq_firstOccurrences xs⟩
  · simp [_removeDuplicates, JVal.truthy, _isArray, JVal.toArr]
  · intro x
    rw [mem_dedupFirst x xs []]
    simp

/-- Witness for `removeDuplicates_first_occurrences`: the example
`[{a:1},{a:1},{a:2}]`. -/
theorem removeDuplicates_first_occurrences_witness :
    ∃ ys, _removeDuplicates (JVal.arr [JVal.obj [("a", JVal.num 1)],
        JVal.obj [("a", JVal.num 1)], JVal.obj [("a", JVal.num 2)]]) = some ys ∧
      ys.Sublist [JVal.obj [("a", JVal.num 1)], JVal.obj [("a", JVal.num 1)],
        JVal.obj [("a", JVal.num 2)]] ∧ ys.Nodup ∧
      (∀ x, x ∈ ys ↔ x ∈ [JVal.obj [("a", JVal.num 1)], JVal.obj [("a", JVal.num 1)],
        JVal.obj [("a", JVal.num 2)]]) ∧
      ys = firstOccurrences [JVal.obj [("a", JVal.num 1)], JVal.obj [("a", JVal.num 1)],
        JVal.obj [("a", JVal.num 2)]] :=
  removeDuplicates_first_occurrences _ (by decide)
